import Mathlib

/-!
Formal model of `scripts/get-release-version.js`.

The script computes the next release version for a package by reconciling an
npm registry, a git tag store and a GitHub release host.  External processes
(`npm view`, `git tag -l`, `gh release view`, `git rev-parse`,
`new Date().toISOString()`) are modelled by an explicit environment record
`Env`; a `none` / `Except.error` value of an adapter models the spawned
command throwing, the payload being the trimmed stdout otherwise.  JavaScript
exceptions are modelled by `Except String`, JavaScript `undefined` by
`Option`, and JavaScript numbers produced by `parseInt` by `Option Int`
(`none` standing for `NaN`); integers are modelled exactly (the script never
produces values outside the float-safe range in the situations the theorems
below describe, and the theorems carry explicit bounds where that matters).
String processing is done over `List Char` with structural recursion so that
every definition evaluates by kernel reduction.
-/

/-! ### JavaScript-style string helpers -/

/-- Whitespace as recognised by `String.prototype.trim` (ASCII part). -/
def isJsWs (c : Char) : Bool :=
  c = ' ' || c = '\t' || c = '\n' || c = '\r' || c = '\x0b' || c = '\x0c'

/-- Trim leading and trailing whitespace from a character list. -/
def trimWs (l : List Char) : List Char :=
  ((l.dropWhile isJsWs).reverse.dropWhile isJsWs).reverse

/-- Value of a (decimal) digit string, most significant digit first. -/
def digitsToNat (l : List Char) : Nat :=
  l.foldl (fun a c => a * 10 + (c.toNat - 48)) 0

def isHexDigitCh (c : Char) : Bool :=
  c.isDigit || ('a' ≤ c && c ≤ 'f') || ('A' ≤ c && c ≤ 'F')

def hexVal (c : Char) : Nat :=
  if c.isDigit then c.toNat - 48
  else if 'a' ≤ c && c ≤ 'f' then c.toNat - 87
  else c.toNat - 55

def hexToNat (l : List Char) : Nat :=
  l.foldl (fun a c => a * 16 + hexVal c) 0

/-- `String.prototype.split` with a one-character separator, on char lists.
Mirrors the JavaScript behaviour: the result is never empty and keeps empty
pieces (so `"a..b".split('.')` has an empty middle piece). -/
def splitCh (sep : Char) : List Char → List (List Char)
  | [] => [[]]
  | c :: cs =>
    if c = sep then [] :: splitCh sep cs
    else
      match splitCh sep cs with
      | [] => [[c]]
      | h :: t => (c :: h) :: t

/-- `s.split(sep)` for a one-character separator. -/
def jsSplitChar (s : String) (sep : Char) : List String :=
  (splitCh sep s.toList).map String.mk

/-- Everything strictly before the first occurrence of `sub`; the whole list
when `sub` does not occur.  This is `s.replace(new RegExp(sub + ".*"), '')`
for a literal `sub` and newline-free input. -/
def cutAt (sub : List Char) : List Char → List Char
  | [] => []
  | c :: cs => if sub.isPrefixOf (c :: cs) then [] else c :: cutAt sub cs

/-- `s.replace(/<sub>.*/, '')` for a literal pattern `sub`. -/
def cutAtSub (s sub : String) : String :=
  String.mk (cutAt sub.toList s.toList)

/-- `s.replace(/^v/, '')`: drop one leading `v` if present. -/
def stripLeadingV (s : String) : String :=
  match s.toList with
  | 'v' :: rest => String.mk rest
  | _ => s

/-- Strip `p` from the front of `l`, or fail. -/
def stripPre : List Char → List Char → Option (List Char)
  | [], l => some l
  | _ :: _, [] => none
  | p :: ps, c :: cs => if p = c then stripPre ps cs else none

/-- `String.prototype.startsWith`. -/
def jsStartsWith (s pre : String) : Bool :=
  (stripPre pre.toList s.toList).isSome

/-- JavaScript truthiness of a possibly-`undefined` string: `undefined` and
`""` are falsy. -/
def jsTruthy : Option String → Bool
  | none => false
  | some s => s ≠ ""

/-- Interpolation of a possibly-`undefined` string into a template literal. -/
def jsStr : Option String → String
  | none => "undefined"
  | some s => s

/-- `o || d` for a string option. -/
def jsOrDefault (o : Option String) (d : String) : String :=
  match o with
  | none => d
  | some s => if s = "" then d else s

/-- Core of `parseInt` after sign handling: radix-16 when the string starts
`0x`/`0X`, else radix 10; longest digit prefix; `none` for `NaN`. -/
def jsParseIntCore (l : List Char) : Option Nat :=
  match l with
  | '0' :: 'x' :: rest =>
    let ds := rest.takeWhile isHexDigitCh
    if ds.isEmpty then none else some (hexToNat ds)
  | '0' :: 'X' :: rest =>
    let ds := rest.takeWhile isHexDigitCh
    if ds.isEmpty then none else some (hexToNat ds)
  | _ =>
    let ds := l.takeWhile Char.isDigit
    if ds.isEmpty then none else some (digitsToNat ds)

/-- JavaScript `parseInt(s)` (no explicit radix): skip whitespace, optional
sign, then the longest valid digit prefix; `none` models `NaN`. -/
def jsParseInt (s : String) : Option Int :=
  match s.toList.dropWhile isJsWs with
  | '-' :: rest => (jsParseIntCore rest).map (fun n => -(n : Int))
  | '+' :: rest => (jsParseIntCore rest).map (fun n => (n : Int))
  | l => (jsParseIntCore l).map (fun n => (n : Int))

/-- `parseInt` applied to a possibly-`undefined` argument
(`parseInt(undefined)` is `NaN`). -/
def jsParseIntOpt : Option String → Option Int
  | none => none
  | some s => jsParseInt s

/-- `x ? parseInt(x) : 0` for a possibly-`undefined` string `x`. -/
def jsElseZero : Option String → Option Int
  | none => some 0
  | some s => if s = "" then some 0 else jsParseInt s

/-- `n + 1` on a JavaScript number (`NaN + 1` is `NaN`). -/
def jsNumAddOne : Option Int → Option Int :=
  Option.map (fun n => n + 1)

/-- Interpolation of a JavaScript number into a template literal. -/
def jsNumStr : Option Int → String
  | none => "NaN"
  | some n => toString n

/-! ### The `semver` library: parsing

`semver.valid` accepts `v?MAJOR.MINOR.PATCH(-prerelease)?(+build)?` with the
strict grammar of the FULL regular expression of the `semver` package: the
three main components are digit runs without leading zeros, prerelease
identifiers are over `[0-9A-Za-z-]`, nonempty, and all-digit identifiers must
not have leading zeros; the input must be at most 256 characters and the main
components at most `Number.MAX_SAFE_INTEGER`. -/

def maxSafeInt : Nat := 9007199254740991

structure SemVer where
  major : Nat
  minor : Nat
  patch : Nat
  prerelease : List String
deriving DecidableEq, Repr

def isIdChar (c : Char) : Bool := c.isDigit || c.isAlpha || c = '-'

def isPreSectionChar (c : Char) : Bool := isIdChar c || c = '.'

/-- One numeric main component `0|[1-9]\d*` (greedy), with the rest. -/
def parseMainNum (l : List Char) : Option (Nat × List Char) :=
  let ds := l.takeWhile Char.isDigit
  let rest := l.dropWhile Char.isDigit
  if ds.isEmpty then none
  else if ds.head? = some '0' && ds.length != 1 then none
  else some (digitsToNat ds, rest)

/-- A valid prerelease identifier: nonempty, over `[0-9A-Za-z-]`, and if all
digits then no leading zero. -/
def validPreId (l : List Char) : Bool :=
  !l.isEmpty && l.all isIdChar &&
    (!(l.all Char.isDigit) || l.head? != some '0' || l.length == 1)

/-- A valid build identifier: nonempty over `[0-9A-Za-z-]`. -/
def validBuildId (l : List Char) : Bool :=
  !l.isEmpty && l.all isIdChar

/-- The `+build` tail: the whole rest must be dot-separated build ids. -/
def buildOk (l : List Char) : Bool :=
  (l.dropWhile isPreSectionChar).isEmpty &&
    ((splitCh '.' (l.takeWhile isPreSectionChar)).all validBuildId)

/-- `semver.parse` / the truthiness of `semver.valid`. -/
def semverParse (s : String) : Option SemVer :=
  if s.length > 256 then none
  else
    let l0 := trimWs s.toList
    let l1 := match l0 with | 'v' :: rest => rest | l => l
    match parseMainNum l1 with
    | none => none
    | some (maj, r1) =>
      match r1 with
      | '.' :: r1b =>
        match parseMainNum r1b with
        | none => none
        | some (minr, r2) =>
          match r2 with
          | '.' :: r2b =>
            match parseMainNum r2b with
            | none => none
            | some (pat, r3) =>
              if maj > maxSafeInt || minr > maxSafeInt || pat > maxSafeInt then none
              else
                match r3 with
                | [] => some ⟨maj, minr, pat, []⟩
                | '-' :: r4 =>
                  let run := r4.takeWhile isPreSectionChar
                  let after := r4.dropWhile isPreSectionChar
                  let ids := splitCh '.' run
                  if ids.all validPreId then
                    match after with
                    | [] => some ⟨maj, minr, pat, ids.map (fun x => String.mk x)⟩
                    | '+' :: r5 =>
                      if buildOk r5 then some ⟨maj, minr, pat, ids.map (fun x => String.mk x)⟩
                      else none
                    | _ => none
                  else none
                | '+' :: r5 => if buildOk r5 then some ⟨maj, minr, pat, []⟩ else none
                | _ => none
          | _ => none
      | _ => none

/-! ### The `semver` library: precedence comparison -/

def natCompare (a b : Nat) : Ordering :=
  if a < b then .lt else if a = b then .eq else .gt

def strCompare (a b : String) : Ordering :=
  if a = b then .eq else if a < b then .lt else .gt

/-- The `/^[0-9]+$/` test of `compareIdentifiers`. -/
def isNumericStr (s : String) : Bool :=
  !s.toList.isEmpty && s.toList.all Char.isDigit

/-- `compareIdentifiers`: numeric identifiers compare by value and sort below
alphanumeric ones; alphanumeric identifiers compare as strings. -/
def compareIdent (a b : String) : Ordering :=
  if isNumericStr a then
    if isNumericStr b then natCompare (digitsToNat a.toList) (digitsToNat b.toList)
    else .lt
  else if isNumericStr b then .gt
  else strCompare a b

/-- The identifier-by-identifier loop of `comparePre`: a shorter list that is
a prefix of the other sorts first. -/
def cmpPreList : List String → List String → Ordering
  | [], [] => .eq
  | [], _ :: _ => .lt
  | _ :: _, [] => .gt
  | a :: as, b :: bs => (compareIdent a b).then (cmpPreList as bs)

/-- `comparePre`: a version with a prerelease sorts below the same version
without one. -/
def comparePre (a b : List String) : Ordering :=
  if !a.isEmpty && b.isEmpty then .lt
  else if a.isEmpty && !b.isEmpty then .gt
  else if a.isEmpty && b.isEmpty then .eq
  else cmpPreList a b

/-- `semver.compare`: main components, then prerelease. -/
def semverCompare (a b : SemVer) : Ordering :=
  (natCompare a.major b.major).then
    ((natCompare a.minor b.minor).then
      ((natCompare a.patch b.patch).then (comparePre a.prerelease b.prerelease)))

/-- Parse a version string, defaulting arbitrarily; the sort below only ever
compares strings that passed the `semver.valid` filter. -/
def semverOf (s : String) : SemVer :=
  (semverParse s).getD ⟨0, 0, 0, []⟩

/-- `semver.rcompare a b = semver.compare b a` on version strings. -/
def rcompareStr (a b : String) : Ordering :=
  semverCompare (semverOf b) (semverOf a)

/-- `a` sorts no later than `b` under the descending comparator
`(a, b) => semver.rcompare(a, b)` passed to `Array.prototype.sort`. -/
def tagBefore (a b : String) : Prop :=
  rcompareStr a b ≠ Ordering.gt

instance : DecidableRel tagBefore := fun _ _ => instDecidableNot

/-! ### The environment: external processes -/

/-- Results of the external commands the script spawns.  A function argument
is the argument interpolated into the command line.  `none` / `Except.error`
model `execSync` throwing; payloads are the trimmed stdout. -/
structure Env where
  /-- `npm view @google/gemini-cli version --tag=<distTag>`. -/
  npmView : String → Option String
  /-- `npm view @google/gemini-cli versions --json`, parsed as a JSON array;
  `none` also covers a failing `JSON.parse`. -/
  npmVersionsJson : Option (List String)
  /-- `git tag -l '<pattern>'`. -/
  gitTagList : String → Option String
  /-- `gh release view "<tag>" --json tagName --jq .tagName`; the error
  payload is the thrown error's message. -/
  ghRelease : String → Except String String
  /-- `new Date().toISOString()`. -/
  isoDateTime : String
  /-- `git rev-parse --short HEAD`. -/
  gitRevParseShort : Except String String

/-! ### The script -/

/-- `getVersionFromNPM`: the registry's version for a dist-tag, `''` when the
query fails. -/
def getVersionFromNPM (env : Env) (distTag : String) : String :=
  match env.npmView distTag with
  | some s => s
  | none => ""

/-- The nonempty lines of a `git tag -l` output. -/
def tagLines (out : String) : List String :=
  ((splitCh '\n' out.toList).map String.mk).filter (fun t => t ≠ "")

/-- The tags with their `v` stripped that parse as valid semver: the list the
script sorts. -/
def candidateVersions (out : String) : List String :=
  ((tagLines out).map stripLeadingV).filter (fun v => (semverParse v).isSome)

/-- `getLatestTag`: list tags matching `pat`, strip `v`, keep valid semver
versions, sort by `semver.rcompare` (descending precedence) and return the
first with `v` restored; `''` when the command fails or nothing is left.
`Array.prototype.sort` with the consistent comparator `rcompare` is modelled
by insertion sort over `tagBefore`. -/
def getLatestTag (env : Env) (pat : String) : String :=
  match env.gitTagList pat with
  | none => ""
  | some out =>
    if (tagLines out).isEmpty then ""
    else
      match List.insertionSort tagBefore (candidateVersions out) with
      | [] => ""
      | w :: _ => "v" ++ w

/-- `verifyGitHubReleaseExists`: ask the release host for the tag; a failing
query and a mismatching answer both surface as a discrepancy error (the
mismatch throw is caught by the function's own catch and rewrapped). -/
def verifyGitHubReleaseExists (env : Env) (tagName : String) : Except String Unit :=
  match env.ghRelease tagName with
  | .error msg =>
    .error ("Discrepancy found! Failed to verify GitHub release for " ++ tagName ++
      ". Error: " ++ msg)
  | .ok output =>
    if output ≠ tagName then
      .error ("Discrepancy found! Failed to verify GitHub release for " ++ tagName ++
        ". Error: " ++ "Discrepancy found! NPM version " ++ tagName ++
        " is missing a corresponding GitHub release.")
    else .ok ()

/-- The conflict entry contributed by the npm registry's full version list. -/
def npmConflicts (env : Env) (newVersion : String) : List String :=
  match env.npmVersionsJson with
  | some allVersions =>
    if newVersion ∈ allVersions then ["NPM registry already has version " ++ newVersion]
    else []
  | none => []

/-- The conflict entry contributed by the git tag store. -/
def gitConflicts (env : Env) (newVersion : String) : List String :=
  match env.gitTagList ("v" ++ newVersion) with
  | some out => if out = "v" ++ newVersion then ["Git tag v" ++ newVersion ++ " already exists"] else []
  | none => []

/-- The conflict entry contributed by the release host. -/
def ghConflicts (env : Env) (newVersion : String) : List String :=
  match env.ghRelease ("v" ++ newVersion) with
  | .ok out => if out = "v" ++ newVersion then ["GitHub release v" ++ newVersion ++ " already exists"] else []
  | .error _ => []

/-- The `conflicts` array of `validateVersionConflicts`, in push order. -/
def conflictList (env : Env) (newVersion : String) : List String :=
  npmConflicts env newVersion ++ gitConflicts env newVersion ++ ghConflicts env newVersion

/-- `validateVersionConflicts`: each source that reports the computed version
as present contributes an entry; query failures are ignored; a nonempty list
aborts with one aggregate error. -/
def validateVersionConflicts (env : Env) (newVersion : String) : Except String Unit :=
  let conflicts := conflictList env newVersion
  if conflicts.length > 0 then
    .error ("Version conflict! Cannot create " ++ newVersion ++ ":\n" ++
      String.intercalate "\n" conflicts)
  else .ok ()

/-- `getAndVerifyTags`: the three-way discrepancy check for one channel. -/
def getAndVerifyTags (env : Env) (npmDistTag gitTagPattern : String) :
    Except String (String × String) :=
  let latestVersion := getVersionFromNPM env npmDistTag
  let latestTag := getLatestTag env gitTagPattern
  if "v" ++ latestVersion ≠ latestTag then
    .error ("Discrepancy found! NPM " ++ npmDistTag ++ " tag (" ++ latestVersion ++
      ") does not match latest git " ++ npmDistTag ++ " tag (" ++ latestTag ++ ").")
  else
    match verifyGitHubReleaseExists env latestTag with
    | .error e => .error e
    | .ok _ => .ok (latestVersion, latestTag)

structure VersionData where
  releaseVersion : String
  npmTag : String
  previousReleaseTag : String
deriving DecidableEq, Repr

/-- `getNightlyVersion`. -/
def getNightlyVersion (env : Env) : Except String VersionData :=
  match getAndVerifyTags env "nightly" "v*-nightly*" with
  | .error e => .error e
  | .ok (latestVersion, latestTag) =>
    let baseVersion := jsStr (jsSplitChar latestVersion '-')[0]?
    let versionParts := jsSplitChar baseVersion '.'
    let major := jsStr versionParts[0]?
    let minor := jsElseZero versionParts[1]?
    let nextMinor := jsNumAddOne minor
    let date := String.mk ((env.isoDateTime.toList.take 10).filter (fun c => c ≠ '-'))
    match env.gitRevParseShort with
    | .error e => .error e
    | .ok gitShortHash =>
      .ok ⟨major ++ "." ++ jsNumStr nextMinor ++ ".0-nightly." ++ date ++ "." ++ gitShortHash,
        "nightly", latestTag⟩

/-- The `^\d+\.\d+\.\d+$` test of `validateVersion`. -/
def matchesXYZ (s : String) : Bool :=
  match s.toList.takeWhile Char.isDigit, s.toList.dropWhile Char.isDigit with
  | _ :: _, '.' :: r1 =>
    match r1.takeWhile Char.isDigit, r1.dropWhile Char.isDigit with
    | _ :: _, '.' :: r2 =>
      match r2.takeWhile Char.isDigit, r2.dropWhile Char.isDigit with
      | _ :: _, [] => true
      | _, _ => false
    | _, _ => false
  | _, _ => false

/-- The `^\d+\.\d+\.\d+-preview\.\d+$` test of `validateVersion`. -/
def matchesXYZPreviewN (s : String) : Bool :=
  match s.toList.takeWhile Char.isDigit, s.toList.dropWhile Char.isDigit with
  | _ :: _, '.' :: r1 =>
    match r1.takeWhile Char.isDigit, r1.dropWhile Char.isDigit with
    | _ :: _, '.' :: r2 =>
      match r2.takeWhile Char.isDigit, r2.dropWhile Char.isDigit with
      | _ :: _, r3 =>
        match stripPre "-preview.".toList r3 with
        | some r4 =>
          match r4.takeWhile Char.isDigit, r4.dropWhile Char.isDigit with
          | _ :: _, [] => true
          | _, _ => false
        | none => false
      | _, _ => false
    | _, _ => false
  | _, _ => false

/-- `validateVersion`: an exact-format check with a fixed error message. -/
def validateVersion (version format name : String) : Except String Unit :=
  let ok : Bool :=
    if format = "X.Y.Z" then matchesXYZ version
    else if format = "X.Y.Z-preview.N" then matchesXYZPreviewN version
    else false
  if ok then .ok ()
  else .error ("Invalid " ++ name ++ ": " ++ version ++ ". Must be in " ++ format ++ " format.")

structure Args where
  type : Option String
  stable_version_override : Option String
  preview_version_override : Option String
  /-- `args['patch-from']`. -/
  patch_from : Option String
deriving DecidableEq

/-- `getStableVersion`. -/
def getStableVersion (env : Env) (args : Args) : Except String VersionData :=
  match getAndVerifyTags env "preview" "v*-preview*" with
  | .error e => .error e
  | .ok (latestPreviewVersion, _) =>
    let rv : Except String String :=
      if jsTruthy args.stable_version_override then
        let overrideVersion := stripLeadingV (jsStr args.stable_version_override)
        match validateVersion overrideVersion "X.Y.Z" "stable_version_override" with
        | .error e => .error e
        | .ok _ => .ok overrideVersion
      else .ok (cutAtSub latestPreviewVersion "-preview")
    match rv with
    | .error e => .error e
    | .ok releaseVersion =>
      match getAndVerifyTags env "latest" "v[0-9].[0-9].[0-9]" with
      | .error e => .error e
      | .ok (_, previousStableTag) => .ok ⟨releaseVersion, "latest", previousStableTag⟩

/-- `getPreviewVersion`. -/
def getPreviewVersion (env : Env) (args : Args) : Except String VersionData :=
  match getAndVerifyTags env "nightly" "v*-nightly*" with
  | .error e => .error e
  | .ok (latestNightlyVersion, _) =>
    let rv : Except String String :=
      if jsTruthy args.preview_version_override then
        let overrideVersion := stripLeadingV (jsStr args.preview_version_override)
        match validateVersion overrideVersion "X.Y.Z-preview.N" "preview_version_override" with
        | .error e => .error e
        | .ok _ => .ok overrideVersion
      else .ok (cutAtSub latestNightlyVersion "-nightly" ++ "-preview.0")
    match rv with
    | .error e => .error e
    | .ok releaseVersion =>
      match getAndVerifyTags env "preview" "v*-preview*" with
      | .error e => .error e
      | .ok (_, previousPreviewTag) => .ok ⟨releaseVersion, "preview", previousPreviewTag⟩

/-- `getPatchVersion`. -/
def getPatchVersion (env : Env) (patchFrom : Option String) : Except String VersionData :=
  if !jsTruthy patchFrom || (patchFrom ≠ some "stable" && patchFrom ≠ some "preview") then
    .error "Patch type must be specified with --patch-from=stable or --patch-from=preview"
  else
    let distTag := if patchFrom = some "stable" then "latest" else "preview"
    let pat := if distTag = "latest" then "v[0-9].[0-9].[0-9]" else "v*-preview*"
    match getAndVerifyTags env distTag pat with
    | .error e => .error e
    | .ok (latestVersion, latestTag) =>
      if patchFrom = some "stable" then
        let versionParts := jsSplitChar latestVersion '.'
        let major := jsStr versionParts[0]?
        let minor := jsStr versionParts[1]?
        let patch := jsElseZero versionParts[2]?
        .ok ⟨major ++ "." ++ minor ++ "." ++ jsNumStr (jsNumAddOne patch), distTag, latestTag⟩
      else
        let pieces := jsSplitChar latestVersion '-'
        let version := jsStr pieces[0]?
        let prereleasePart := pieces[1]?
        if !jsTruthy prereleasePart || !jsStartsWith (jsStr prereleasePart) "preview." then
          .error ("Invalid preview version format: " ++ latestVersion ++
            ". Expected format like \"0.6.0-preview.2\"")
        else
          let p := jsStr prereleasePart
          match jsParseIntOpt (jsSplitChar p '.')[1]? with
          | none => .error ("Could not parse preview number from: " ++ p)
          | some previewNumber =>
            .ok ⟨version ++ "-preview." ++ toString (previewNumber + 1), distTag, latestTag⟩

structure ReleaseInfo where
  releaseTag : String
  releaseVersion : String
  npmTag : String
  previousReleaseTag : String
deriving DecidableEq, Repr

/-- `getVersion`: dispatch on the release type (defaulting to `nightly`),
then check the computed version against all three sources. -/
def getVersion (env : Env) (args : Args) : Except String ReleaseInfo :=
  let t := jsOrDefault args.type "nightly"
  let vd : Except String VersionData :=
    if t = "nightly" then getNightlyVersion env
    else if t = "stable" then getStableVersion env args
    else if t = "preview" then getPreviewVersion env args
    else if t = "patch" then getPatchVersion env args.patch_from
    else .error ("Unknown release type: " ++ t)
  match vd with
  | .error e => .error e
  | .ok d =>
    match validateVersionConflicts env d.releaseVersion with
    | .error e => .error e
    | .ok _ => .ok ⟨"v" ++ d.releaseVersion, d.releaseVersion, d.npmTag, d.previousReleaseTag⟩

/-! ### Laws of the comparators

`Array.prototype.sort` only has a specified result for consistent
comparators; the following lemmas establish that the semver comparator is
one: it is a total preorder, so the first element of the sorted array is a
maximum.  `CmpLaws` packages the needed properties. -/

theorem ordThen_eq {o₁ o₂ : Ordering} : o₁.then o₂ = .eq ↔ o₁ = .eq ∧ o₂ = .eq := by
  cases o₁ <;> simp [Ordering.then]

theorem ordThen_ne_gt {o₁ o₂ : Ordering} :
    o₁.then o₂ ≠ .gt ↔ o₁ = .lt ∨ (o₁ = .eq ∧ o₂ ≠ .gt) := by
  cases o₁ <;> simp [Ordering.then]

theorem ordSwap_then (o₁ o₂ : Ordering) : (o₁.then o₂).swap = o₁.swap.then o₂.swap := by
  cases o₁ <;> rfl

/-- A consistent comparator: antisymmetric under `swap`, transitive on
non-`gt` results, and with `eq` results substitutive. -/
structure CmpLaws {α : Type _} (cmp : α → α → Ordering) : Prop where
  symm : ∀ a b, cmp a b = (cmp b a).swap
  leTrans : ∀ a b c, cmp a b ≠ .gt → cmp b c ≠ .gt → cmp a c ≠ .gt
  eqSubst : ∀ a b c, cmp a b = .eq → cmp a c = cmp b c

theorem CmpLaws.eqSubstR {α : Type _} {cmp : α → α → Ordering} (h : CmpLaws cmp)
    {b c : α} (hbc : cmp b c = .eq) (a : α) : cmp a b = cmp a c := by
  have h1 := h.symm a b
  have h2 := h.symm a c
  rw [h1, h2, h.eqSubst b c a hbc]

theorem CmpLaws.ltTrans {α : Type _} {cmp : α → α → Ordering} (h : CmpLaws cmp)
    {a b c : α} (hab : cmp a b = .lt) (hbc : cmp b c = .lt) : cmp a c = .lt := by
  have h1 : cmp a c ≠ .gt :=
    h.leTrans a b c (by simp [hab]) (by simp [hbc])
  cases hac : cmp a c with
  | lt => rfl
  | eq =>
    have := h.eqSubst a c b hac
    rw [hab, h.symm c b, hbc] at this
    exact absurd this (by simp [Ordering.swap])
  | gt => exact absurd hac h1

theorem CmpLaws.thenComp {α : Type _} {c₁ c₂ : α → α → Ordering}
    (h₁ : CmpLaws c₁) (h₂ : CmpLaws c₂) :
    CmpLaws (fun a b => (c₁ a b).then (c₂ a b)) where
  symm a b := by
    simp only [h₁.symm a b, h₂.symm a b, ordSwap_then]
  leTrans a b c hab hbc := by
    simp only [ordThen_ne_gt] at hab hbc ⊢
    rcases hab with hab | ⟨hab, hab2⟩
    · rcases hbc with hbc | ⟨hbc, _⟩
      · exact Or.inl (h₁.ltTrans hab hbc)
      · exact Or.inl ((h₁.eqSubstR hbc a).symm.trans hab)
    · rcases hbc with hbc | ⟨hbc, hbc2⟩
      · exact Or.inl ((h₁.eqSubst a b c hab).trans hbc)
      · exact Or.inr ⟨(h₁.eqSubst a b c hab).trans hbc, h₂.leTrans a b c hab2 hbc2⟩
  eqSubst a b c hab := by
    simp only [ordThen_eq] at hab
    simp only [h₁.eqSubst a b c hab.1, h₂.eqSubst a b c hab.2]

theorem CmpLaws.comap {α β : Type _} {cmp : β → β → Ordering} (h : CmpLaws cmp)
    (f : α → β) : CmpLaws (fun a b => cmp (f a) (f b)) where
  symm a b := h.symm (f a) (f b)
  leTrans a b c := h.leTrans (f a) (f b) (f c)
  eqSubst a b c := h.eqSubst (f a) (f b) (f c)

theorem natCompare_eq_eq {a b : Nat} (h : natCompare a b = .eq) : a = b := by
  unfold natCompare at h
  split_ifs at h <;> simp_all

theorem natCompare_ne_gt {a b : Nat} : natCompare a b ≠ .gt ↔ a ≤ b := by
  unfold natCompare
  split_ifs with h1 h2
  · exact iff_of_true (by simp) (by omega)
  · exact iff_of_true (by simp) (by omega)
  · exact iff_of_false (by simp) (by omega)

theorem natCompare_refl (a : Nat) : natCompare a a = .eq := by
  unfold natCompare
  simp

theorem natCompare_laws : CmpLaws natCompare where
  symm a b := by
    unfold natCompare
    rcases Nat.lt_trichotomy a b with h | h | h
    · rw [if_pos h, if_neg (show ¬b < a by omega), if_neg (show ¬b = a by omega)]
      rfl
    · subst h
      rw [if_neg (show ¬a < a by omega), if_pos rfl]
      rfl
    · rw [if_neg (show ¬a < b by omega), if_neg (show ¬a = b by omega), if_pos h]
      rfl
  leTrans a b c := by
    simp only [natCompare_ne_gt]
    omega
  eqSubst a b c h := by
    rw [natCompare_eq_eq h]

theorem strCompare_eq_eq {a b : String} (h : strCompare a b = .eq) : a = b := by
  unfold strCompare at h
  split_ifs at h <;> simp_all

theorem strCompare_ne_gt {a b : String} : strCompare a b ≠ .gt ↔ a ≤ b := by
  unfold strCompare
  split_ifs with h1 h2
  · exact iff_of_true (by simp) (le_of_eq h1)
  · exact iff_of_true (by simp) (le_of_lt h2)
  · exact iff_of_false (by simp) (by rw [not_le]; rcases lt_trichotomy a b with h | h | h <;> simp_all)

theorem strCompare_laws : CmpLaws strCompare where
  symm a b := by
    unfold strCompare
    rcases lt_trichotomy a b with h | h | h
    · rw [if_neg h.ne, if_pos h, if_neg h.ne', if_neg (lt_asymm h)]
      rfl
    · subst h
      rw [if_pos rfl]
      rfl
    · rw [if_neg h.ne', if_neg (lt_asymm h), if_neg h.ne, if_pos h]
      rfl
  leTrans a b c := by
    simp only [strCompare_ne_gt]
    exact le_trans
  eqSubst a b c h := by
    rw [strCompare_eq_eq h]

theorem strCompare_refl (a : String) : strCompare a a = .eq := by
  unfold strCompare
  simp

theorem compareIdent_laws : CmpLaws compareIdent where
  symm a b := by
    unfold compareIdent
    by_cases ha : isNumericStr a <;> by_cases hb : isNumericStr b <;> simp only [ha, hb] <;>
      simp only [if_pos, if_neg, Bool.false_eq_true, if_false, if_true]
    · exact natCompare_laws.symm _ _
    · rfl
    · rfl
    · exact strCompare_laws.symm _ _
  leTrans a b c hab hbc := by
    unfold compareIdent at hab hbc ⊢
    by_cases ha : isNumericStr a <;> by_cases hb : isNumericStr b <;>
      by_cases hc : isNumericStr c <;>
      simp only [ha, hb, hc, Bool.false_eq_true, if_false, if_true] at hab hbc ⊢
    · exact natCompare_laws.leTrans _ _ _ hab hbc
    · simp
    · exact absurd rfl hbc
    · simp
    · exact absurd rfl hab
    · exact absurd rfl hab
    · exact absurd rfl hbc
    · exact strCompare_laws.leTrans _ _ _ hab hbc
  eqSubst a b c hab := by
    unfold compareIdent at hab ⊢
    by_cases ha : isNumericStr a <;> by_cases hb : isNumericStr b <;>
      simp only [ha, hb, Bool.false_eq_true, if_false, if_true] at hab ⊢
    · rw [natCompare_eq_eq hab]
    · simp at hab
    · simp at hab
    · rw [strCompare_eq_eq hab]

theorem compareIdent_refl (a : String) : compareIdent a a = .eq := by
  unfold compareIdent
  by_cases ha : isNumericStr a <;> simp [ha, natCompare_refl, strCompare_refl]

theorem cmpPreList_symm : ∀ a b : List String, cmpPreList a b = (cmpPreList b a).swap
  | [], [] => rfl
  | [], _ :: _ => rfl
  | _ :: _, [] => rfl
  | a :: as, b :: bs => by
    show (compareIdent a b).then (cmpPreList as bs) =
      ((compareIdent b a).then (cmpPreList bs as)).swap
    rw [ordSwap_then, ← compareIdent_laws.symm a b, ← cmpPreList_symm as bs]

theorem cmpPreList_leTrans :
    ∀ a b c : List String, cmpPreList a b ≠ .gt → cmpPreList b c ≠ .gt → cmpPreList a c ≠ .gt
  | [], _, c, _, _ => by cases c <;> simp [cmpPreList]
  | _ :: _, [], _, hab, _ => by simp [cmpPreList] at hab
  | _ :: _, _ :: _, [], _, hbc => by simp [cmpPreList] at hbc
  | x :: xs, y :: ys, z :: zs, hab, hbc => by
    simp only [cmpPreList] at hab hbc ⊢
    rw [ordThen_ne_gt] at hab hbc ⊢
    rcases hab with hab | ⟨hab, hab2⟩
    · rcases hbc with hbc | ⟨hbc, _⟩
      · exact Or.inl (compareIdent_laws.ltTrans hab hbc)
      · exact Or.inl ((compareIdent_laws.eqSubstR hbc x).symm.trans hab)
    · rcases hbc with hbc | ⟨hbc, hbc2⟩
      · exact Or.inl ((compareIdent_laws.eqSubst x y z hab).trans hbc)
      · exact Or.inr ⟨(compareIdent_laws.eqSubst x y z hab).trans hbc,
          cmpPreList_leTrans xs ys zs hab2 hbc2⟩

theorem cmpPreList_eqSubst :
    ∀ a b c : List String, cmpPreList a b = .eq → cmpPreList a c = cmpPreList b c
  | [], [], _, _ => rfl
  | [], _ :: _, _, h => by simp [cmpPreList] at h
  | _ :: _, [], _, h => by simp [cmpPreList] at h
  | _ :: _, _ :: _, [], _ => rfl
  | x :: xs, y :: ys, z :: zs, h => by
    simp only [cmpPreList] at h ⊢
    rw [ordThen_eq] at h
    rw [compareIdent_laws.eqSubst x y z h.1, cmpPreList_eqSubst xs ys zs h.2]

theorem cmpPreList_refl : ∀ a : List String, cmpPreList a a = .eq
  | [] => rfl
  | x :: xs => by
    show (compareIdent x x).then (cmpPreList xs xs) = .eq
    rw [compareIdent_refl, cmpPreList_refl xs]
    rfl

theorem comparePre_symm (a b : List String) : comparePre a b = (comparePre b a).swap := by
  cases a <;> cases b <;> simp only [comparePre, List.isEmpty_nil, List.isEmpty_cons,
    Bool.not_true, Bool.not_false, Bool.true_and, Bool.false_and, Bool.and_true, Bool.and_false,
    if_true, if_false, Bool.false_eq_true] <;> try rfl
  exact cmpPreList_symm _ _

theorem comparePre_leTrans (a b c : List String) :
    comparePre a b ≠ .gt → comparePre b c ≠ .gt → comparePre a c ≠ .gt := by
  intro hab hbc
  cases a with
  | nil =>
    cases c with
    | nil => simp [comparePre]
    | cons z zs =>
      cases b with
      | nil => exact absurd rfl hbc
      | cons y ys => exact absurd rfl hab
  | cons x xs =>
    cases c with
    | nil => simp [comparePre]
    | cons z zs =>
      cases b with
      | nil => exact absurd rfl hbc
      | cons y ys => exact cmpPreList_leTrans _ _ _ hab hbc

theorem comparePre_eqSubst (a b c : List String) :
    comparePre a b = .eq → comparePre a c = comparePre b c := by
  intro h
  cases a with
  | nil =>
    cases b with
    | nil => rfl
    | cons y ys => exact absurd h (by simp [comparePre])
  | cons x xs =>
    cases b with
    | nil => exact absurd h (by simp [comparePre])
    | cons y ys =>
      cases c with
      | nil => rfl
      | cons z zs => exact cmpPreList_eqSubst _ _ _ h

theorem comparePre_laws : CmpLaws comparePre :=
  ⟨comparePre_symm, comparePre_leTrans, comparePre_eqSubst⟩

theorem comparePre_refl (a : List String) : comparePre a a = .eq := by
  cases a <;> simp [comparePre, cmpPreList_refl]

theorem semverCompare_laws : CmpLaws semverCompare := by
  have h : CmpLaws (fun a b : SemVer =>
      (natCompare a.major b.major).then
        ((natCompare a.minor b.minor).then
          ((natCompare a.patch b.patch).then (comparePre a.prerelease b.prerelease)))) :=
    CmpLaws.thenComp (natCompare_laws.comap SemVer.major)
      (CmpLaws.thenComp (natCompare_laws.comap SemVer.minor)
        (CmpLaws.thenComp (natCompare_laws.comap SemVer.patch)
          (comparePre_laws.comap SemVer.prerelease)))
  exact h

theorem semverCompare_refl (a : SemVer) : semverCompare a a = .eq := by
  unfold semverCompare
  rw [natCompare_refl, natCompare_refl, natCompare_refl, comparePre_refl]
  rfl

/-! ### Order instances for the sort relation -/

theorem rcompareStr_symm (a b : String) : rcompareStr a b = (rcompareStr b a).swap :=
  semverCompare_laws.symm (semverOf b) (semverOf a)

instance : IsTotal String tagBefore where
  total a b := by
    unfold tagBefore
    cases h : rcompareStr a b with
    | lt => exact Or.inl (by simp [h])
    | eq => exact Or.inl (by simp [h])
    | gt =>
      right
      have hs := rcompareStr_symm a b
      rw [h] at hs
      cases hba : rcompareStr b a with
      | lt => simp [tagBefore, hba]
      | eq => rw [hba] at hs; exact absurd hs (by decide)
      | gt => rw [hba] at hs; exact absurd hs (by decide)

instance : IsTrans String tagBefore where
  trans a b c hab hbc :=
    semverCompare_laws.leTrans (semverOf c) (semverOf b) (semverOf a) hbc hab

theorem tagBefore_refl (a : String) : tagBefore a a := by
  unfold tagBefore rcompareStr
  rw [semverCompare_refl]
  simp

/-! ### Bridge lemmas for the string helpers -/

theorem splitCh_ne_nil (sep : Char) : ∀ l, splitCh sep l ≠ []
  | [] => by simp [splitCh]
  | c :: cs => by
    unfold splitCh
    split_ifs
    · simp
    · cases h : splitCh sep cs <;> simp

theorem splitCh_head (sep : Char) :
    ∀ l, (splitCh sep l).head? = some (l.takeWhile (fun c => c ≠ sep))
  | [] => rfl
  | c :: cs => by
    unfold splitCh
    by_cases h : c = sep
    · subst h
      rw [if_pos rfl]
      simp [List.takeWhile_cons]
    · rw [if_neg h]
      cases hs : splitCh sep cs with
      | nil => exact absurd hs (splitCh_ne_nil sep cs)
      | cons hd tl =>
        have ih := splitCh_head sep cs
        rw [hs] at ih
        simp only [List.head?_cons, Option.some.injEq] at ih
        simp [List.takeWhile_cons, h, ih]

theorem splitCh_not_mem {sep : Char} : ∀ {l : List Char}, sep ∉ l → splitCh sep l = [l]
  | [], _ => rfl
  | c :: cs, h => by
    have hc : ¬c = sep := fun e => h (e ▸ List.mem_cons_self c cs)
    have hcs : sep ∉ cs := fun e => h (List.mem_cons_of_mem c e)
    unfold splitCh
    rw [if_neg hc, splitCh_not_mem hcs]

theorem splitCh_append {sep : Char} :
    ∀ {l₁ : List Char} (l₂ : List Char), sep ∉ l₁ →
      splitCh sep (l₁ ++ sep :: l₂) = l₁ :: splitCh sep l₂
  | [], l₂, _ => by
    show splitCh sep (sep :: l₂) = [] :: splitCh sep l₂
    rw [splitCh, if_pos rfl]
  | c :: cs, l₂, h => by
    have hc : ¬c = sep := fun e => h (e ▸ List.mem_cons_self c cs)
    have hcs : sep ∉ cs := fun e => h (List.mem_cons_of_mem c e)
    show splitCh sep (c :: (cs ++ sep :: l₂)) = (c :: cs) :: splitCh sep l₂
    rw [splitCh, if_neg hc, splitCh_append l₂ hcs]

theorem stripPre_append : ∀ (p l : List Char), stripPre p (p ++ l) = some l
  | [], _ => rfl
  | c :: cs, l => by
    show stripPre (c :: cs) (c :: (cs ++ l)) = some l
    unfold stripPre
    rw [if_pos rfl, stripPre_append cs l]

theorem isPrefixOf_append : ∀ (p l : List Char), p.isPrefixOf (p ++ l) = true
  | [], _ => by simp [List.isPrefixOf]
  | c :: cs, l => by
    show (c :: cs).isPrefixOf (c :: (cs ++ l)) = true
    simp [List.isPrefixOf, isPrefixOf_append cs l]

theorem cutAt_exact :
    ∀ {l₁ : List Char} (sub' l₂ : List Char), '-' ∉ l₁ →
      cutAt ('-' :: sub') (l₁ ++ '-' :: (sub' ++ l₂)) = l₁
  | [], sub', l₂, _ => by
    show cutAt ('-' :: sub') ('-' :: (sub' ++ l₂)) = []
    unfold cutAt
    rw [if_pos]
    show ('-' :: sub').isPrefixOf ('-' :: (sub' ++ l₂)) = true
    exact isPrefixOf_append ('-' :: sub') l₂
  | c :: cs, sub', l₂, h => by
    have hc : ¬c = '-' := fun e => h (e ▸ List.mem_cons_self c cs)
    have hcs : ('-' : Char) ∉ cs := fun e => h (List.mem_cons_of_mem c e)
    show cutAt ('-' :: sub') (c :: (cs ++ '-' :: (sub' ++ l₂))) = c :: cs
    unfold cutAt
    rw [if_neg, cutAt_exact sub' l₂ hcs]
    show ¬('-' :: sub').isPrefixOf (c :: (cs ++ '-' :: (sub' ++ l₂))) = true
    simp [List.isPrefixOf]
    intro he
    exact absurd he.symm hc

theorem digit_ne {c a : Char} (h : c.isDigit = true) (ha : a.isDigit = false) : c ≠ a :=
  fun e => by rw [e, ha] at h; exact Bool.false_ne_true h

theorem digit_not_ws {c : Char} (h : c.isDigit = true) : isJsWs c = false := by
  have h1 : c ≠ ' ' := digit_ne h (by decide)
  have h2 : c ≠ '\t' := digit_ne h (by decide)
  have h3 : c ≠ '\n' := digit_ne h (by decide)
  have h4 : c ≠ '\r' := digit_ne h (by decide)
  have h5 : c ≠ '\x0b' := digit_ne h (by decide)
  have h6 : c ≠ '\x0c' := digit_ne h (by decide)
  simp [isJsWs, h1, h2, h3, h4, h5, h6]

theorem dropWhile_ws_digits : ∀ {l : List Char}, l.all Char.isDigit = true →
    l.dropWhile isJsWs = l
  | [], _ => rfl
  | c :: cs, h => by
    have hc : c.isDigit = true := by
      simp only [List.all_cons, Bool.and_eq_true] at h
      exact h.1
    simp [List.dropWhile_cons, digit_not_ws hc]

theorem takeWhile_digits : ∀ {l : List Char}, l.all Char.isDigit = true →
    l.takeWhile Char.isDigit = l
  | [], _ => rfl
  | c :: cs, h => by
    simp only [List.all_cons, Bool.and_eq_true] at h
    simp [List.takeWhile_cons, h.1, takeWhile_digits h.2]

theorem jsParseIntCore_digits {l : List Char} (hne : l ≠ []) (hd : l.all Char.isDigit = true) :
    jsParseIntCore l = some (digitsToNat l) := by
  unfold jsParseIntCore
  split
  · simp only [List.all_cons, Bool.and_eq_true] at hd
    exact absurd hd.2.1 (by decide)
  · simp only [List.all_cons, Bool.and_eq_true] at hd
    exact absurd hd.2.1 (by decide)
  · rw [takeWhile_digits hd]
    cases l with
    | nil => exact absurd rfl hne
    | cons c cs => simp

theorem jsParseInt_digits {l : List Char} (hne : l ≠ []) (hd : l.all Char.isDigit = true) :
    jsParseInt (String.mk l) = some ((digitsToNat l : Int)) := by
  unfold jsParseInt
  have htl : (String.mk l).toList = l := rfl
  rw [htl, dropWhile_ws_digits hd]
  split
  · simp only [List.all_cons, Bool.and_eq_true] at hd
    exact absurd hd.1 (by decide)
  · simp only [List.all_cons, Bool.and_eq_true] at hd
    exact absurd hd.1 (by decide)
  · rw [jsParseIntCore_digits hne hd]
    rfl

/-! ### The sorted list's head is a semver maximum -/

theorem candidateVersions_nil_of_tagLines {out : String} (h : (tagLines out).isEmpty = true) :
    candidateVersions out = [] := by
  unfold candidateVersions
  rw [List.isEmpty_iff.mp h]
  rfl

theorem getLatestTag_max (env : Env) (p out : String)
    (hout : env.gitTagList p = some out) (hne : candidateVersions out ≠ []) :
    ∃ w ∈ candidateVersions out, getLatestTag env p = "v" ++ w ∧
      ∀ u ∈ candidateVersions out, semverCompare (semverOf u) (semverOf w) ≠ Ordering.gt := by
  unfold getLatestTag
  rw [hout]
  have hte : (tagLines out).isEmpty = false := by
    cases hti : (tagLines out).isEmpty
    · rfl
    · exact absurd (candidateVersions_nil_of_tagLines hti) hne
  simp only [hte, Bool.false_eq_true, if_false]
  cases hs : List.insertionSort tagBefore (candidateVersions out) with
  | nil =>
    have hlen := List.length_insertionSort tagBefore (candidateVersions out)
    rw [hs] at hlen
    exact absurd (List.eq_nil_of_length_eq_zero hlen.symm) hne
  | cons w rest =>
    refine ⟨w, ?_, rfl, ?_⟩
    · have hw : w ∈ List.insertionSort tagBefore (candidateVersions out) := by
        rw [hs]
        exact List.mem_cons_self w rest
      exact (List.mem_insertionSort tagBefore).mp hw
    · intro u hu
      have hu' : u ∈ w :: rest := by
        rw [← hs]
        exact (List.mem_insertionSort tagBefore).mpr hu
      have hsorted := List.sorted_insertionSort tagBefore (candidateVersions out)
      rw [hs] at hsorted
      rcases List.mem_cons.mp hu' with h | h
      · subst h
        exact tagBefore_refl u
      · exact (List.sorted_cons.mp hsorted).1 u h

/-! ### Small string bridges -/

theorem strToList_append (a b : String) : (a ++ b).toList = a.toList ++ b.toList := rfl

theorem strMk_toList (s : String) : String.mk s.toList = s := rfl

theorem str_ne_empty_of_toList {s : String} (h : s.toList ≠ []) : s ≠ "" :=
  fun e => h (by rw [e]; rfl)

theorem takeWhile_append_all {p : Char → Bool} :
    ∀ {l₁ l₂ : List Char}, (∀ c ∈ l₁, p c = true) →
      (l₁ ++ l₂).takeWhile p = l₁ ++ l₂.takeWhile p
  | [], _, _ => rfl
  | c :: cs, l₂, h => by
    have hc := h c (List.mem_cons_self c cs)
    simp [List.takeWhile_cons, hc,
      takeWhile_append_all (fun x hx => h x (List.mem_cons_of_mem c hx))]

theorem jsSplitChar_zero (s : String) (sep : Char) :
    (jsSplitChar s sep)[0]? = some (String.mk (s.toList.takeWhile (fun c => c ≠ sep))) := by
  unfold jsSplitChar
  rw [List.getElem?_map, ← List.head?_eq_getElem?, splitCh_head]
  rfl

/-! ### Concrete environments used as evaluation inputs -/

/-- A fully consistent environment: nightly `0.6.0-nightly.20250910.a31830a3`,
preview `0.5.0-preview.2`, stable `0.4.1`, current date 2025-09-17, short
commit hash `d3bf8a3d`. -/
def envA : Env where
  npmView := fun d =>
    if d = "nightly" then some "0.6.0-nightly.20250910.a31830a3"
    else if d = "preview" then some "0.5.0-preview.2"
    else if d = "latest" then some "0.4.1"
    else none
  npmVersionsJson := some ["0.4.1", "0.5.0-preview.2", "0.6.0-nightly.20250910.a31830a3"]
  gitTagList := fun p =>
    if p = "v*-nightly*" then some "v0.6.0-nightly.20250910.a31830a3"
    else if p = "v*-preview*" then some "v0.5.0-preview.2"
    else if p = "v[0-9].[0-9].[0-9]" then some "v0.4.1"
    else some ""
  ghRelease := fun t =>
    if t = "v0.6.0-nightly.20250910.a31830a3" then .ok t
    else if t = "v0.5.0-preview.2" then .ok t
    else if t = "v0.4.1" then .ok t
    else .error "release not found"
  isoDateTime := "2025-09-17T12:00:00.000Z"
  gitRevParseShort := .ok "d3bf8a3d"

/-- An environment where only the npm registry's full version list answers;
git and the release host fail. -/
def envFO : Env where
  npmView := fun _ => none
  npmVersionsJson := some ["0.7.0"]
  gitTagList := fun _ => none
  ghRelease := fun _ => .error "gh failed"
  isoDateTime := ""
  gitRevParseShort := .error "no git"

/-- An environment whose tag store lists `v0.9.0` and `v0.10.0` (in an order
and with a lexicographic rank that both differ from semver precedence). -/
def envC2 : Env where
  npmView := fun _ => none
  npmVersionsJson := none
  gitTagList := fun p => if p = "v*" then some "v0.9.0\nv0.10.0" else none
  ghRelease := fun _ => .error "x"
  isoDateTime := ""
  gitRevParseShort := .error "x"

/-! ### C1 -/

/-- C1: every channel validation (`getAndVerifyTags`): a mismatch between
`"v" + <npm latest>` and the tag-store tag fails with the discrepancy error
naming both values and the channel and returns no version; on a match, the
release host is queried for a release named exactly that tag, and a failing
query or a mismatching answer fails with a discrepancy error identifying the
missing release; only when all three agree does it return the latest version
and tag. -/
theorem c1_getAndVerifyTags (env : Env) (d p v t : String)
    (hv : getVersionFromNPM env d = v) (ht : getLatestTag env p = t) :
    ("v" ++ v ≠ t →
      getAndVerifyTags env d p = .error ("Discrepancy found! NPM " ++ d ++ " tag (" ++ v ++
        ") does not match latest git " ++ d ++ " tag (" ++ t ++ ").")) ∧
    ("v" ++ v = t → ∀ e, env.ghRelease t = .error e →
      getAndVerifyTags env d p =
        .error ("Discrepancy found! Failed to verify GitHub release for " ++ t ++
          ". Error: " ++ e)) ∧
    ("v" ++ v = t → ∀ o, env.ghRelease t = .ok o → o ≠ t →
      getAndVerifyTags env d p =
        .error ("Discrepancy found! Failed to verify GitHub release for " ++ t ++
          ". Error: " ++ "Discrepancy found! NPM version " ++ t ++
          " is missing a corresponding GitHub release.")) ∧
    ("v" ++ v = t → env.ghRelease t = .ok t → getAndVerifyTags env d p = .ok (v, t)) := by
  subst hv ht
  refine ⟨fun hne => ?_, fun heq e hgh => ?_, fun heq o hgh hno => ?_, fun heq hgh => ?_⟩
  · simp [getAndVerifyTags, hne]
  · simp [getAndVerifyTags, verifyGitHubReleaseExists, heq, hgh]
  · simp [getAndVerifyTags, verifyGitHubReleaseExists, heq, hgh, hno]
  · simp [getAndVerifyTags, verifyGitHubReleaseExists, heq, hgh]

theorem c1_witness :
    getAndVerifyTags envA "nightly" "v*-nightly*" =
      .ok ("0.6.0-nightly.20250910.a31830a3", "v0.6.0-nightly.20250910.a31830a3") :=
  (c1_getAndVerifyTags envA "nightly" "v*-nightly*"
    "0.6.0-nightly.20250910.a31830a3" "v0.6.0-nightly.20250910.a31830a3"
    rfl rfl).2.2.2 rfl rfl

/-! ### C2 -/

/-- C2: for every tag-store answer, `getLatestTag` returns `"v" ++ w` where
`w` is among the tags (with `v` stripped) that parse as valid semver and no
such candidate has strictly higher semantic-version precedence than `w` —
so the choice is by semver precedence, not by string order or report order —
and it returns the empty string when no tag parses as a valid version (also
when the tag command fails or lists nothing). -/
theorem c2_getLatestTag (env : Env) (p : String) :
    (env.gitTagList p = none → getLatestTag env p = "") ∧
    (∀ out, env.gitTagList p = some out → candidateVersions out = [] →
      getLatestTag env p = "") ∧
    (∀ out, env.gitTagList p = some out → candidateVersions out ≠ [] →
      ∃ w ∈ candidateVersions out, getLatestTag env p = "v" ++ w ∧
        ∀ u ∈ candidateVersions out,
          semverCompare (semverOf u) (semverOf w) ≠ Ordering.gt) := by
  refine ⟨fun h => ?_, fun out hout hnil => ?_,
    fun out hout hne => getLatestTag_max env p out hout hne⟩
  · unfold getLatestTag
    rw [h]
  · unfold getLatestTag
    simp only [hout]
    by_cases hte : (tagLines out).isEmpty
    · rw [if_pos hte]
    · rw [if_neg hte]
      have hs : List.insertionSort tagBefore (candidateVersions out) = [] := by
        rw [hnil]
        rfl
      rw [hs]

theorem c2_witness :
    (∃ w ∈ candidateVersions "v0.9.0\nv0.10.0",
      getLatestTag envC2 "v*" = "v" ++ w ∧
        ∀ u ∈ candidateVersions "v0.9.0\nv0.10.0",
          semverCompare (semverOf u) (semverOf w) ≠ Ordering.gt) ∧
    getLatestTag envC2 "v*" = "v0.10.0" :=
  ⟨(c2_getLatestTag envC2 "v*").2.2 "v0.9.0\nv0.10.0" rfl (by decide), by rfl⟩

/-! ### C3 -/

/-- C3: the conflict checker queries all three sources for the computed
version; each source that reports it present contributes exactly its entry, a
nonempty conflict list fails with the single aggregate error enumerating all
entries, a failing source query contributes nothing (fail-open), and in
particular a registry conflict is still reported when the tag-store and
release-host queries both fail. -/
theorem c3_validateVersionConflicts (env : Env) (v : String) :
    (conflictList env v = npmConflicts env v ++ gitConflicts env v ++ ghConflicts env v) ∧
    (∀ l, env.npmVersionsJson = some l → v ∈ l →
      npmConflicts env v = ["NPM registry already has version " ++ v]) ∧
    (∀ l, env.npmVersionsJson = some l → v ∉ l → npmConflicts env v = []) ∧
    (env.npmVersionsJson = none → npmConflicts env v = []) ∧
    (env.gitTagList ("v" ++ v) = some ("v" ++ v) →
      gitConflicts env v = ["Git tag v" ++ v ++ " already exists"]) ∧
    (∀ o, env.gitTagList ("v" ++ v) = some o → o ≠ "v" ++ v → gitConflicts env v = []) ∧
    (env.gitTagList ("v" ++ v) = none → gitConflicts env v = []) ∧
    (env.ghRelease ("v" ++ v) = .ok ("v" ++ v) →
      ghConflicts env v = ["GitHub release v" ++ v ++ " already exists"]) ∧
    (∀ o, env.ghRelease ("v" ++ v) = .ok o → o ≠ "v" ++ v → ghConflicts env v = []) ∧
    (∀ e, env.ghRelease ("v" ++ v) = .error e → ghConflicts env v = []) ∧
    (conflictList env v = [] → validateVersionConflicts env v = .ok ()) ∧
    (conflictList env v ≠ [] → validateVersionConflicts env v =
      .error ("Version conflict! Cannot create " ++ v ++ ":\n" ++
        String.intercalate "\n" (conflictList env v))) ∧
    (∀ l e, env.npmVersionsJson = some l → v ∈ l → env.gitTagList ("v" ++ v) = none →
      env.ghRelease ("v" ++ v) = .error e →
      validateVersionConflicts env v =
        .error ("Version conflict! Cannot create " ++ v ++ ":\n" ++
          ("NPM registry already has version " ++ v))) := by
  refine ⟨rfl, fun l hl hm => ?_, fun l hl hm => ?_, fun h => ?_, fun h => ?_,
    fun o ho hne => ?_, fun h => ?_, fun h => ?_, fun o ho hne => ?_, fun e he => ?_,
    fun h => ?_, fun h => ?_, fun l e hl hm hg hr => ?_⟩
  · simp [npmConflicts, hl, hm]
  · simp [npmConflicts, hl, hm]
  · simp [npmConflicts, h]
  · simp [gitConflicts, h]
  · simp [gitConflicts, ho, hne]
  · simp [gitConflicts, h]
  · simp [ghConflicts, h]
  · simp [ghConflicts, ho, hne]
  · simp [ghConflicts, he]
  · unfold validateVersionConflicts
    rw [h]
    rfl
  · unfold validateVersionConflicts
    have hp : (conflictList env v).length > 0 := List.length_pos.mpr h
    rw [if_pos hp]
  · have h1 : npmConflicts env v = ["NPM registry already has version " ++ v] := by
      simp [npmConflicts, hl, hm]
    have h2 : gitConflicts env v = [] := by simp [gitConflicts, hg]
    have h3 : ghConflicts env v = [] := by simp [ghConflicts, hr]
    have hc : conflictList env v = ["NPM registry already has version " ++ v] := by
      unfold conflictList
      rw [h1, h2, h3]
      rfl
    unfold validateVersionConflicts
    rw [hc]
    rfl

theorem c3_witness :
    validateVersionConflicts envFO "0.7.0" =
      .error "Version conflict! Cannot create 0.7.0:\nNPM registry already has version 0.7.0" :=
  (c3_validateVersionConflicts envFO "0.7.0").2.2.2.2.2.2.2.2.2.2.2.2
    ["0.7.0"] "gh failed" rfl (by simp) rfl rfl

/-! ### C9 -/

theorem jsOrDefault_some_ne {s : String} (d : String) (h : s ≠ "") :
    jsOrDefault (some s) d = s := by
  show (if s = "" then d else s) = s
  rw [if_neg h]

theorem getVersion_unknownType (env : Env) (args : Args) (t : String)
    (ht : args.type = some t) (h0 : t ≠ "") (h1 : t ≠ "nightly") (h2 : t ≠ "stable")
    (h3 : t ≠ "preview") (h4 : t ≠ "patch") :
    getVersion env args = .error ("Unknown release type: " ++ t) := by
  simp only [getVersion]
  rw [ht, jsOrDefault_some_ne "nightly" h0, if_neg h1, if_neg h2, if_neg h3, if_neg h4]

theorem getVersion_badSelector (env : Env) (args : Args)
    (ht : args.type = some "patch") (h1 : args.patch_from ≠ some "stable")
    (h2 : args.patch_from ≠ some "preview") :
    getVersion env args =
      .error "Patch type must be specified with --patch-from=stable or --patch-from=preview" := by
  simp only [getVersion]
  rw [ht, jsOrDefault_some_ne "nightly" (by decide),
    if_neg (by decide : ¬("patch" : String) = "nightly"),
    if_neg (by decide : ¬("patch" : String) = "stable"),
    if_neg (by decide : ¬("patch" : String) = "preview"),
    if_pos rfl]
  unfold getPatchVersion
  have hcond : (!jsTruthy args.patch_from ||
      (args.patch_from ≠ some "stable" && args.patch_from ≠ some "preview")) = true := by
    cases hp : args.patch_from with
    | none => rfl
    | some s =>
      rw [hp] at h1 h2
      simp [jsTruthy, h1, h2]
  rw [if_pos hcond]

/-- C9: an invocation with a release type outside
`nightly`/`stable`/`preview`/`patch` fails with the "unknown release type"
error, and a `patch` invocation whose sub-selector is missing or invalid
fails with the missing-selector error; in both cases the result is the same
for every environment, so no external query can influence (or be required
for) the failure.  An absent or empty type string instead defaults to
`nightly`. -/
theorem c9_failFast (args : Args) (env env2 : Env) :
    (∀ t, args.type = some t → t ≠ "" → t ≠ "nightly" → t ≠ "stable" → t ≠ "preview" →
      t ≠ "patch" →
      getVersion env args = .error ("Unknown release type: " ++ t) ∧
      getVersion env args = getVersion env2 args) ∧
    (args.type = some "patch" → args.patch_from ≠ some "stable" →
      args.patch_from ≠ some "preview" →
      getVersion env args =
        .error "Patch type must be specified with --patch-from=stable or --patch-from=preview" ∧
      getVersion env args = getVersion env2 args) := by
  constructor
  · intro t ht h0 h1 h2 h3 h4
    refine ⟨getVersion_unknownType env args t ht h0 h1 h2 h3 h4, ?_⟩
    rw [getVersion_unknownType env args t ht h0 h1 h2 h3 h4,
      getVersion_unknownType env2 args t ht h0 h1 h2 h3 h4]
  · intro ht h1 h2
    refine ⟨getVersion_badSelector env args ht h1 h2, ?_⟩
    rw [getVersion_badSelector env args ht h1 h2,
      getVersion_badSelector env2 args ht h1 h2]

theorem c9_witness :
    getVersion envA ⟨some "bogus", none, none, none⟩ = .error "Unknown release type: bogus" ∧
    getVersion envA ⟨some "patch", none, none, some "wrong"⟩ =
      .error "Patch type must be specified with --patch-from=stable or --patch-from=preview" :=
  ⟨((c9_failFast ⟨some "bogus", none, none, none⟩ envA envFO).1 "bogus" rfl
      (by decide) (by decide) (by decide) (by decide) (by decide)).1,
    ((c9_failFast ⟨some "patch", none, none, some "wrong"⟩ envA envFO).2 rfl
      (by decide) (by decide)).1⟩

/-! ### Helpers for decomposing version strings the way the script does -/

theorem toList_mk (l : List Char) : (String.mk l).toList = l := rfl

theorem takeWhile_ne_cons_true {sep c : Char} {l : List Char} (h : c ≠ sep) :
    (c :: l).takeWhile (fun x => x ≠ sep) = c :: l.takeWhile (fun x => x ≠ sep) := by
  simp [List.takeWhile_cons, h]

theorem takeWhile_ne_append {sep : Char} {l₁ l₂ : List Char} (h : ∀ c ∈ l₁, c ≠ sep) :
    (l₁ ++ l₂).takeWhile (fun x => x ≠ sep) = l₁ ++ l₂.takeWhile (fun x => x ≠ sep) :=
  takeWhile_append_all (fun c hc => decide_eq_true (h c hc))

theorem takeWhile_dash_xyz {majL minL restL : List Char}
    (hmaj : ∀ c ∈ majL, c ≠ '-') (hmin : ∀ c ∈ minL, c ≠ '-') :
    (majL ++ '.' :: (minL ++ '.' :: restL)).takeWhile (fun c => c ≠ '-') =
      majL ++ '.' :: (minL ++ '.' :: restL.takeWhile (fun c => c ≠ '-')) := by
  rw [takeWhile_ne_append hmaj, takeWhile_ne_cons_true (by decide),
    takeWhile_ne_append hmin, takeWhile_ne_cons_true (by decide)]

theorem splitCh_dot_three {majL minL restL : List Char}
    (hmaj : ∀ c ∈ majL, c ≠ '.') (hmin : ∀ c ∈ minL, c ≠ '.') :
    splitCh '.' (majL ++ '.' :: (minL ++ '.' :: restL)) = majL :: minL :: splitCh '.' restL := by
  have h1 : ('.' : Char) ∉ majL := fun hx => (hmaj '.' hx) rfl
  have h2 : ('.' : Char) ∉ minL := fun hx => (hmin '.' hx) rfl
  rw [splitCh_append (minL ++ '.' :: restL) h1, splitCh_append restL h2]

theorem jsElseZero_digits {s : String} (hne : s.toList ≠ [])
    (hd : s.toList.all Char.isDigit = true) :
    jsElseZero (some s) = some ((digitsToNat s.toList : Int)) := by
  show (if s = "" then some 0 else jsParseInt s) = _
  rw [if_neg (str_ne_empty_of_toList hne)]
  have hp := jsParseInt_digits hne hd
  rw [strMk_toList] at hp
  exact hp

theorem jsNumStr_natSucc (n : Nat) :
    jsNumStr (jsNumAddOne (some ((n : Int)))) = toString (n + 1) := by
  show toString ((n : Int) + 1) = toString (n + 1)
  have he : ((n : Int) + 1) = (((n + 1 : Nat)) : Int) := by omega
  rw [he]
  rfl

theorem filter_ne_all {sep : Char} {l : List Char} (h : sep ∉ l) :
    l.filter (fun c => c ≠ sep) = l :=
  List.filter_eq_self.mpr (fun c hc => decide_eq_true (fun e => h (e ▸ hc)))

theorem filter_ne_cons_self {sep : Char} {l : List Char} :
    (sep :: l).filter (fun c => c ≠ sep) = l.filter (fun c => c ≠ sep) := by
  simp [List.filter_cons]

theorem date_yyyymmdd {yS mS dS tS : String}
    (hy : yS.toList.length = 4) (hm : mS.toList.length = 2) (hd2 : dS.toList.length = 2)
    (hynd : ('-' : Char) ∉ yS.toList) (hmnd : ('-' : Char) ∉ mS.toList)
    (hdnd : ('-' : Char) ∉ dS.toList) :
    String.mk (((yS ++ "-" ++ mS ++ "-" ++ dS ++ tS).toList.take 10).filter
      (fun c => c ≠ '-')) = yS ++ mS ++ dS := by
  have hl : (yS ++ "-" ++ mS ++ "-" ++ dS ++ tS).toList =
      (yS.toList ++ '-' :: (mS.toList ++ '-' :: dS.toList)) ++ tS.toList := by
    simp [strToList_append, show ("-" : String).toList = ['-'] from rfl, List.append_assoc]
  have hlen : (yS.toList ++ '-' :: (mS.toList ++ '-' :: dS.toList)).length = 10 := by
    simp only [List.length_append, List.length_cons]
    omega
  rw [hl, ← hlen, List.take_left, List.filter_append, filter_ne_all hynd,
    filter_ne_cons_self, List.filter_append, filter_ne_all hmnd, filter_ne_cons_self,
    filter_ne_all hdnd]
  show String.mk (yS.toList ++ (mS.toList ++ dS.toList)) = yS ++ mS ++ dS
  rw [← List.append_assoc]
  rfl

/-! ### C4 -/

/-- C4: given a validated latest nightly of shape
`<major>.<minor>.<rest>` (with a numeric minor), the nightly release type
keeps the major, increments the minor, resets patch to `0` and appends
`-nightly.<UTC date YYYYMMDD>.<short hash>`, with npm tag `nightly` and the
validated nightly tag as `previousReleaseTag`.  The bound on the minor keeps
the exact model inside JavaScript's float-safe integer range. -/
theorem c4_getNightlyVersion (env : Env)
    (v tag hash maj minS restS yS mS dS tS : String)
    (h : getAndVerifyTags env "nightly" "v*-nightly*" = .ok (v, tag))
    (hhash : env.gitRevParseShort = .ok hash)
    (hv : v = maj ++ "." ++ minS ++ "." ++ restS)
    (hmaj : ∀ c ∈ maj.toList, c ≠ '.' ∧ c ≠ '-')
    (hminne : minS.toList ≠ [])
    (hmind : minS.toList.all Char.isDigit = true)
    (hbound : digitsToNat minS.toList ≤ maxSafeInt)
    (hiso : env.isoDateTime = yS ++ "-" ++ mS ++ "-" ++ dS ++ tS)
    (hy : yS.toList.length = 4) (hm : mS.toList.length = 2) (hd2 : dS.toList.length = 2)
    (hynd : ('-' : Char) ∉ yS.toList) (hmnd : ('-' : Char) ∉ mS.toList)
    (hdnd : ('-' : Char) ∉ dS.toList) :
    getNightlyVersion env = .ok ⟨maj ++ "." ++ toString (digitsToNat minS.toList + 1) ++
      ".0-nightly." ++ (yS ++ mS ++ dS) ++ "." ++ hash, "nightly", tag⟩ := by
  have hminD : ∀ c ∈ minS.toList, Char.isDigit c = true := by
    rw [List.all_eq_true] at hmind
    exact fun c hc => hmind c hc
  have hmaj' : ∀ c ∈ maj.toList, c ≠ '-' := fun c hc => (hmaj c hc).2
  have hmajd : ∀ c ∈ maj.toList, c ≠ '.' := fun c hc => (hmaj c hc).1
  have hmin' : ∀ c ∈ minS.toList, c ≠ '-' := fun c hc => digit_ne (hminD c hc) (by decide)
  have hmind' : ∀ c ∈ minS.toList, c ≠ '.' := fun c hc => digit_ne (hminD c hc) (by decide)
  have hvl : v.toList = maj.toList ++ '.' :: (minS.toList ++ '.' :: restS.toList) := by
    rw [hv]
    simp [strToList_append, show ("." : String).toList = ['.'] from rfl, List.append_assoc]
  simp only [getNightlyVersion, h, hhash]
  rw [jsSplitChar_zero v '-', hvl, takeWhile_dash_xyz hmaj' hmin']
  simp only [jsStr, jsSplitChar, toList_mk]
  rw [splitCh_dot_three hmajd hmind']
  simp only [List.map_cons, List.getElem?_cons_zero, List.getElem?_cons_succ]
  simp only [jsStr, strMk_toList]
  rw [jsElseZero_digits hminne hmind, jsNumStr_natSucc, hiso,
    date_yyyymmdd hy hm hd2 hynd hmnd hdnd]

theorem c4_witness :
    getNightlyVersion envA =
      .ok ⟨"0.7.0-nightly.20250917.d3bf8a3d", "nightly",
        "v0.6.0-nightly.20250910.a31830a3"⟩ :=
  c4_getNightlyVersion envA "0.6.0-nightly.20250910.a31830a3"
    "v0.6.0-nightly.20250910.a31830a3" "d3bf8a3d" "0" "6" "0-nightly.20250910.a31830a3"
    "2025" "09" "17" "T12:00:00.000Z" rfl rfl (by decide) (by decide) (by decide)
    (by decide) (by decide) rfl (by decide) (by decide) (by decide) (by decide)
    (by decide) (by decide)

/-! ### Stripping the prerelease suffix -/

theorem cutAtSub_preview (base post : String) (hb : ('-' : Char) ∉ base.toList) :
    cutAtSub (base ++ "-preview" ++ post) "-preview" = base := by
  unfold cutAtSub
  have hl : (base ++ "-preview" ++ post).toList =
      base.toList ++ '-' :: ("preview".toList ++ post.toList) := by
    simp [strToList_append, show ("-preview" : String).toList = '-' :: "preview".toList from rfl,
      List.append_assoc]
  rw [hl, show ("-preview" : String).toList = '-' :: "preview".toList from rfl,
    cutAt_exact "preview".toList post.toList hb]
  rfl

theorem cutAtSub_nightly (base post : String) (hb : ('-' : Char) ∉ base.toList) :
    cutAtSub (base ++ "-nightly" ++ post) "-nightly" = base := by
  unfold cutAtSub
  have hl : (base ++ "-nightly" ++ post).toList =
      base.toList ++ '-' :: ("nightly".toList ++ post.toList) := by
    simp [strToList_append, show ("-nightly" : String).toList = '-' :: "nightly".toList from rfl,
      List.append_assoc]
  rw [hl, show ("-nightly" : String).toList = '-' :: "nightly".toList from rfl,
    cutAt_exact "nightly".toList post.toList hb]
  rfl

/-! ### C5 -/

/-- C5: for the stable type with no (truthy) manual override, the release
version is the validated latest preview version with its `-preview.*` suffix
stripped, the npm tag is `latest`, and `previousReleaseTag` comes from a
separate validation of the `latest` channel (`v[0-9].[0-9].[0-9]` pattern)
whose latest version `lv` does not enter the release version. -/
theorem c5_getStableVersion (env : Env) (args : Args)
    (pv ptag lv ltag base post : String)
    (h1 : getAndVerifyTags env "preview" "v*-preview*" = .ok (pv, ptag))
    (hno : jsTruthy args.stable_version_override = false)
    (h2 : getAndVerifyTags env "latest" "v[0-9].[0-9].[0-9]" = .ok (lv, ltag))
    (hpv : pv = base ++ "-preview" ++ post)
    (hb : ('-' : Char) ∉ base.toList) :
    getStableVersion env args = .ok ⟨base, "latest", ltag⟩ := by
  simp only [getStableVersion, h1, h2, hno, Bool.false_eq_true, if_false]
  rw [hpv, cutAtSub_preview base post hb]

theorem c5_witness :
    getStableVersion envA ⟨some "stable", none, none, none⟩ =
      .ok ⟨"0.5.0", "latest", "v0.4.1"⟩ :=
  c5_getStableVersion envA ⟨some "stable", none, none, none⟩
    "0.5.0-preview.2" "v0.5.0-preview.2" "0.4.1" "v0.4.1" "0.5.0" ".2"
    rfl rfl rfl (by decide) (by decide)

/-! ### C6 -/

/-- C6: for the preview type with no (truthy) manual override, the release
version is the validated latest nightly's base `major.minor.patch` (its
`-nightly.*` suffix removed) with `-preview.0` appended, and the npm tag is
`preview` (the `previousReleaseTag` comes from the preview channel, see C10). -/
theorem c6_getPreviewVersion (env : Env) (args : Args)
    (nv ntag pv ptag base post : String)
    (h1 : getAndVerifyTags env "nightly" "v*-nightly*" = .ok (nv, ntag))
    (hno : jsTruthy args.preview_version_override = false)
    (h2 : getAndVerifyTags env "preview" "v*-preview*" = .ok (pv, ptag))
    (hnv : nv = base ++ "-nightly" ++ post)
    (hb : ('-' : Char) ∉ base.toList) :
    getPreviewVersion env args = .ok ⟨base ++ "-preview.0", "preview", ptag⟩ := by
  simp only [getPreviewVersion, h1, h2, hno, Bool.false_eq_true, if_false]
  rw [hnv, cutAtSub_nightly base post hb]

theorem c6_witness :
    getPreviewVersion envA ⟨some "preview", none, none, none⟩ =
      .ok ⟨"0.6.0-preview.0", "preview", "v0.5.0-preview.2"⟩ :=
  c6_getPreviewVersion envA ⟨some "preview", none, none, none⟩
    "0.6.0-nightly.20250910.a31830a3" "v0.6.0-nightly.20250910.a31830a3"
    "0.5.0-preview.2" "v0.5.0-preview.2" "0.6.0" ".20250910.a31830a3"
    rfl rfl rfl (by decide) (by decide)

/-! ### C10 -/

/-- An environment whose nightly channel is consistent while its preview
channel disagrees between registry and tag store. -/
def envB : Env where
  npmView := fun d =>
    if d = "nightly" then some "0.6.0-nightly.20250910.a31830a3"
    else if d = "preview" then some "0.5.1-preview.0"
    else none
  npmVersionsJson := none
  gitTagList := fun p =>
    if p = "v*-nightly*" then some "v0.6.0-nightly.20250910.a31830a3"
    else if p = "v*-preview*" then some "v0.5.0-preview.2"
    else some ""
  ghRelease := fun t =>
    if t = "v0.6.0-nightly.20250910.a31830a3" then .ok t else .error "nope"
  isoDateTime := "2025-09-17T12:00:00.000Z"
  gitRevParseShort := .ok "d3bf8a3d"

/-- C10: after the nightly channel validates, `getPreviewVersion` performs a
full discrepancy validation of the preview channel (registry dist-tag
`preview` against `v*-preview*` and the release host): its failure aborts
preview resolution with that discrepancy error even when the nightly channel
is consistent — with no override and also with a valid override supplied —
and on success its latest tag becomes the result's `previousReleaseTag`. -/
theorem c10_previewSecondValidation (env : Env) (args : Args) :
    (∀ nv ntag e, getAndVerifyTags env "nightly" "v*-nightly*" = .ok (nv, ntag) →
      getAndVerifyTags env "preview" "v*-preview*" = .error e →
      (jsTruthy args.preview_version_override = false →
        getPreviewVersion env args = .error e) ∧
      (∀ s, args.preview_version_override = some s →
        matchesXYZPreviewN (stripLeadingV s) = true →
        getPreviewVersion env args = .error e)) ∧
    (∀ nv ntag pv ptag r, getAndVerifyTags env "nightly" "v*-nightly*" = .ok (nv, ntag) →
      getAndVerifyTags env "preview" "v*-preview*" = .ok (pv, ptag) →
      getPreviewVersion env args = .ok r → r.previousReleaseTag = ptag) := by
  constructor
  · intro nv ntag e h1 h2
    constructor
    · intro hno
      simp only [getPreviewVersion, h1, h2, hno, Bool.false_eq_true, if_false]
    · intro s hs hm
      have hsne : s ≠ "" := by
        intro he
        rw [he] at hm
        exact absurd hm (by decide)
      have htr : jsTruthy args.preview_version_override = true := by
        rw [hs]
        simp [jsTruthy, hsne]
      have hvv : validateVersion (stripLeadingV (jsStr args.preview_version_override))
          "X.Y.Z-preview.N" "preview_version_override" = .ok () := by
        rw [hs]
        unfold validateVersion
        rw [if_neg (by decide : ¬("X.Y.Z-preview.N" : String) = "X.Y.Z"), if_pos rfl]
        simp only [jsStr, hm, if_true]
      simp only [getPreviewVersion, h1, h2, htr, if_true, hvv]
  · intro nv ntag pv ptag r h1 h2 hr
    simp only [getPreviewVersion, h1, h2] at hr
    by_cases hc : jsTruthy args.preview_version_override = true
    · simp only [hc, if_true] at hr
      cases hvv : validateVersion (stripLeadingV (jsStr args.preview_version_override))
          "X.Y.Z-preview.N" "preview_version_override" with
      | error e =>
        rw [hvv] at hr
        simp at hr
      | ok u =>
        rw [hvv] at hr
        simp only [] at hr
        injection hr with h3
        rw [← h3]
    · simp only [eq_false_of_ne_true hc, Bool.false_eq_true, if_false] at hr
      injection hr with h3
      rw [← h3]

theorem c10_witness :
    getPreviewVersion envB ⟨some "preview", none, some "1.2.3-preview.4", none⟩ =
      .error "Discrepancy found! NPM preview tag (0.5.1-preview.0) does not match latest git preview tag (v0.5.0-preview.2)." :=
  ((c10_previewSecondValidation envB ⟨some "preview", none, some "1.2.3-preview.4", none⟩).1
    "0.6.0-nightly.20250910.a31830a3" "v0.6.0-nightly.20250910.a31830a3" _ rfl rfl).2
    "1.2.3-preview.4" rfl (by decide)

/-! ### C7 -/

/-- An environment whose preview channel consistently reports
`0.5.0-preview.2abc` — a valid semver whose prerelease suffix is
alphanumeric, not numeric. -/
def envD : Env where
  npmView := fun d => if d = "preview" then some "0.5.0-preview.2abc" else none
  npmVersionsJson := none
  gitTagList := fun p => if p = "v*-preview*" then some "v0.5.0-preview.2abc" else some ""
  ghRelease := fun t => if t = "v0.5.0-preview.2abc" then .ok t else .error "nope"
  isoDateTime := ""
  gitRevParseShort := .error "x"

/-- C7 counterexample: with validated latest preview `0.5.0-preview.2abc`,
whose prerelease suffix `2abc` is not numeric, `patch --patch-from=preview`
does not fail with a parse error: `parseInt` reads the digit prefix `2` and
the call succeeds with `0.5.0-preview.3`. -/
theorem c7_counterexample :
    isNumericStr "2abc" = false ∧
    getPatchVersion envD (some "preview") =
      .ok ⟨"0.5.0-preview.3", "preview", "v0.5.0-preview.2abc"⟩ :=
  ⟨by decide, by rfl⟩

theorem intStr_succ (n : Nat) : toString ((n : Int) + 1) = toString (n + 1) := by
  have he : ((n : Int) + 1) = (((n + 1 : Nat)) : Int) := by omega
  rw [he]
  rfl

/-- The `patch --patch-from=stable` branch of `getPatchVersion`. -/
theorem getPatchVersion_stable (env : Env) :
    getPatchVersion env (some "stable") =
      match getAndVerifyTags env "latest" "v[0-9].[0-9].[0-9]" with
      | .error e => .error e
      | .ok (latestVersion, latestTag) =>
        let versionParts := jsSplitChar latestVersion '.'
        .ok ⟨jsStr versionParts[0]? ++ "." ++ jsStr versionParts[1]? ++ "." ++
          jsNumStr (jsNumAddOne (jsElseZero versionParts[2]?)), "latest", latestTag⟩ := by
  unfold getPatchVersion
  rw [if_neg (by decide)]
  rfl

/-- The `patch --patch-from=preview` branch of `getPatchVersion`. -/
theorem getPatchVersion_preview (env : Env) :
    getPatchVersion env (some "preview") =
      match getAndVerifyTags env "preview" "v*-preview*" with
      | .error e => .error e
      | .ok (latestVersion, latestTag) =>
        let pieces := jsSplitChar latestVersion '-'
        if !jsTruthy pieces[1]? || !jsStartsWith (jsStr pieces[1]?) "preview." then
          .error ("Invalid preview version format: " ++ latestVersion ++
            ". Expected format like \"0.6.0-preview.2\"")
        else
          match jsParseIntOpt (jsSplitChar (jsStr pieces[1]?) '.')[1]? with
          | none => .error ("Could not parse preview number from: " ++ jsStr pieces[1]?)
          | some previewNumber =>
            .ok ⟨jsStr pieces[0]? ++ "-preview." ++ toString (previewNumber + 1),
              "preview", latestTag⟩ := by
  unfold getPatchVersion
  rw [if_neg (by decide)]
  rfl

/-- C7 (amended): for `--patch-from=stable` the validated latest stable
`X.Y.Z` becomes `X.Y.(Z+1)` with npm tag `latest`; for `--patch-from=preview`
the validated latest preview's prerelease must be present and start with
`preview.`, its suffix's leading integer (JavaScript `parseInt`) is
incremented by 1 with npm tag `preview`, and the call fails with the format
error when the prerelease is missing or malformed and with the parse error
when `parseInt` yields `NaN` on the suffix — but a non-numeric suffix with a
digit prefix (such as `2abc`) succeeds, incrementing only that prefix. -/
theorem c7_amended_getPatchVersion (env : Env) :
    (∀ lv ltag maj minS patS, getAndVerifyTags env "latest" "v[0-9].[0-9].[0-9]" = .ok (lv, ltag) →
      lv = maj ++ "." ++ minS ++ "." ++ patS →
      (∀ c ∈ maj.toList, c ≠ '.') → (∀ c ∈ minS.toList, c ≠ '.') →
      patS.toList ≠ [] → patS.toList.all Char.isDigit = true →
      digitsToNat patS.toList ≤ maxSafeInt →
      getPatchVersion env (some "stable") =
        .ok ⟨maj ++ "." ++ minS ++ "." ++ toString (digitsToNat patS.toList + 1),
          "latest", ltag⟩) ∧
    (∀ pv ptag ver numS, getAndVerifyTags env "preview" "v*-preview*" = .ok (pv, ptag) →
      pv = ver ++ "-preview." ++ numS → (∀ c ∈ ver.toList, c ≠ '-') →
      numS.toList ≠ [] → numS.toList.all Char.isDigit = true →
      digitsToNat numS.toList ≤ maxSafeInt →
      getPatchVersion env (some "preview") =
        .ok ⟨ver ++ "-preview." ++ toString (digitsToNat numS.toList + 1), "preview", ptag⟩) ∧
    (∀ pv ptag, getAndVerifyTags env "preview" "v*-preview*" = .ok (pv, ptag) →
      (jsTruthy (jsSplitChar pv '-')[1]? = false ∨
        jsStartsWith (jsStr (jsSplitChar pv '-')[1]?) "preview." = false) →
      getPatchVersion env (some "preview") =
        .error ("Invalid preview version format: " ++ pv ++
          ". Expected format like \"0.6.0-preview.2\"")) ∧
    (∀ pv ptag, getAndVerifyTags env "preview" "v*-preview*" = .ok (pv, ptag) →
      jsTruthy (jsSplitChar pv '-')[1]? = true →
      jsStartsWith (jsStr (jsSplitChar pv '-')[1]?) "preview." = true →
      jsParseIntOpt (jsSplitChar (jsStr (jsSplitChar pv '-')[1]?) '.')[1]? = none →
      getPatchVersion env (some "preview") =
        .error ("Could not parse preview number from: " ++
          jsStr (jsSplitChar pv '-')[1]?)) := by
  refine ⟨?_, ?_, ?_, ?_⟩
  · intro lv ltag maj minS patS h hlv hmajd hmind hpne hpd hbound
    have hpatD : ∀ c ∈ patS.toList, Char.isDigit c = true := by
      rw [List.all_eq_true] at hpd
      exact fun c hc => hpd c hc
    have hpdot : ('.' : Char) ∉ patS.toList :=
      fun hx => absurd (hpatD '.' hx) (by decide)
    have hlvl : lv.toList = maj.toList ++ '.' :: (minS.toList ++ '.' :: patS.toList) := by
      rw [hlv]
      simp [strToList_append, show ("." : String).toList = ['.'] from rfl, List.append_assoc]
    have hsplit : jsSplitChar lv '.' = [maj, minS, patS] := by
      unfold jsSplitChar
      rw [hlvl, splitCh_dot_three hmajd hmind, splitCh_not_mem hpdot]
      simp [strMk_toList]
    rw [getPatchVersion_stable, h]
    simp only [hsplit, List.getElem?_cons_zero, List.getElem?_cons_succ]
    rw [jsElseZero_digits hpne hpd, jsNumStr_natSucc]
    rfl
  · intro pv ptag ver numS h hpv hver hnne hnd hbound
    have hnumD : ∀ c ∈ numS.toList, Char.isDigit c = true := by
      rw [List.all_eq_true] at hnd
      exact fun c hc => hnd c hc
    have hverNoDash : ('-' : Char) ∉ ver.toList := fun hx => (hver '-' hx) rfl
    have hrestNoDash : ('-' : Char) ∉ ("preview.".toList ++ numS.toList) := by
      intro hx
      rcases List.mem_append.mp hx with hx | hx
      · exact absurd hx (by decide)
      · exact absurd (hnumD '-' hx) (by decide)
    have hnodot : ('.' : Char) ∉ numS.toList :=
      fun hx => absurd (hnumD '.' hx) (by decide)
    have hpl : pv.toList = ver.toList ++ '-' :: ("preview.".toList ++ numS.toList) := by
      rw [hpv]
      simp [strToList_append,
        show ("-preview." : String).toList = '-' :: "preview.".toList from rfl,
        List.append_assoc]
    have hsplit : jsSplitChar pv '-' = [ver, String.mk ("preview.".toList ++ numS.toList)] := by
      unfold jsSplitChar
      rw [hpl, splitCh_append _ hverNoDash, splitCh_not_mem hrestNoDash]
      simp [strMk_toList]
    have hprelne : String.mk ("preview.".toList ++ numS.toList) ≠ "" := by
      intro he
      have h2 : "preview.".toList ++ numS.toList = ("" : String).toList := congrArg String.toList he
      simp at h2
    have htr : jsTruthy (some (String.mk ("preview.".toList ++ numS.toList))) = true := by
      show decide (String.mk ("preview.".toList ++ numS.toList) ≠ "") = true
      exact decide_eq_true hprelne
    have hsw : jsStartsWith (String.mk ("preview.".toList ++ numS.toList)) "preview." = true := by
      show (stripPre "preview.".toList ("preview.".toList ++ numS.toList)).isSome = true
      rw [stripPre_append]
      rfl
    have hsplit2 : jsSplitChar (String.mk ("preview.".toList ++ numS.toList)) '.' =
        ["preview", numS] := by
      unfold jsSplitChar
      rw [toList_mk]
      have hshape : "preview.".toList ++ numS.toList = "preview".toList ++ '.' :: numS.toList := by
        simp [show ("preview." : String).toList = "preview".toList ++ ['.'] from rfl,
          List.append_assoc]
      rw [hshape, splitCh_append _ (by decide), splitCh_not_mem hnodot]
      simp [strMk_toList]
    have hpi : jsParseInt numS = some ((digitsToNat numS.toList : Int)) := by
      have hp := jsParseInt_digits hnne hnd
      rw [strMk_toList] at hp
      exact hp
    rw [getPatchVersion_preview, h]
    simp only [hsplit, List.getElem?_cons_zero, List.getElem?_cons_succ, jsStr, htr, hsw,
      Bool.not_true, Bool.or_self, Bool.false_eq_true, if_false, hsplit2, jsParseIntOpt, hpi]
    rw [intStr_succ]
  · intro pv ptag h hbad
    have hcond : (!jsTruthy (jsSplitChar pv '-')[1]? ||
        !jsStartsWith (jsStr (jsSplitChar pv '-')[1]?) "preview.") = true := by
      rcases hbad with hb | hb
      · simp [hb]
      · simp [hb]
    rw [getPatchVersion_preview, h]
    simp only []
    rw [if_pos hcond]
  · intro pv ptag h ht hsw hpn
    have hcond : (!jsTruthy (jsSplitChar pv '-')[1]? ||
        !jsStartsWith (jsStr (jsSplitChar pv '-')[1]?) "preview.") = false := by
      simp [ht, hsw]
    rw [getPatchVersion_preview, h]
    simp only [hcond, Bool.false_eq_true, if_false, hpn]

theorem c7_witness :
    getPatchVersion envA (some "stable") = .ok ⟨"0.4.2", "latest", "v0.4.1"⟩ ∧
    getPatchVersion envA (some "preview") =
      .ok ⟨"0.5.0-preview.3", "preview", "v0.5.0-preview.2"⟩ :=
  ⟨(c7_amended_getPatchVersion envA).1 "0.4.1" "v0.4.1" "0" "4" "1" rfl (by decide)
      (by decide) (by decide) (by decide) (by decide) (by decide),
    (c7_amended_getPatchVersion envA).2.1 "0.5.0-preview.2" "v0.5.0-preview.2" "0.5.0" "2"
      rfl (by decide) (by decide) (by decide) (by decide) (by decide)⟩

/-! ### C8 -/

/-- C8 counterexample: the supplied override `v1.2.3` does not match `X.Y.Z`
exactly, yet the stable resolution succeeds with release version `1.2.3`: the
implementation strips one leading `v` before validating. -/
theorem c8_counterexample :
    matchesXYZ "v1.2.3" = false ∧
    getStableVersion envA ⟨some "stable", some "v1.2.3", none, none⟩ =
      .ok ⟨"1.2.3", "latest", "v0.4.1"⟩ :=
  ⟨by decide, by rfl⟩

/-- C8 (amended): a supplied non-empty manual override is validated after one
leading `v` is stripped: once the channel validation that precedes the check
succeeds, a `stable_version_override` whose stripped value fails `X.Y.Z`
(resp. a `preview_version_override` whose stripped value fails
`X.Y.Z-preview.N`) aborts with exactly
`Invalid <name>: <stripped value>. Must be in <format> format.`; the last two
parts state the format check itself, for any argument string. -/
theorem c8_amended_overrideValidation (env : Env) (args : Args) :
    (∀ s pv ptag, args.stable_version_override = some s → s ≠ "" →
      matchesXYZ (stripLeadingV s) = false →
      getAndVerifyTags env "preview" "v*-preview*" = .ok (pv, ptag) →
      getStableVersion env args =
        .error ("Invalid " ++ "stable_version_override" ++ ": " ++ stripLeadingV s ++
          ". Must be in " ++ "X.Y.Z" ++ " format.")) ∧
    (∀ s nv ntag, args.preview_version_override = some s → s ≠ "" →
      matchesXYZPreviewN (stripLeadingV s) = false →
      getAndVerifyTags env "nightly" "v*-nightly*" = .ok (nv, ntag) →
      getPreviewVersion env args =
        .error ("Invalid " ++ "preview_version_override" ++ ": " ++ stripLeadingV s ++
          ". Must be in " ++ "X.Y.Z-preview.N" ++ " format.")) ∧
    (∀ version name, matchesXYZ version = false →
      validateVersion version "X.Y.Z" name =
        .error ("Invalid " ++ name ++ ": " ++ version ++ ". Must be in " ++ "X.Y.Z" ++
          " format.")) ∧
    (∀ version name, matchesXYZPreviewN version = false →
      validateVersion version "X.Y.Z-preview.N" name =
        .error ("Invalid " ++ name ++ ": " ++ version ++ ". Must be in " ++
          "X.Y.Z-preview.N" ++ " format.")) := by
  have hval1 : ∀ version name, matchesXYZ version = false →
      validateVersion version "X.Y.Z" name =
        .error ("Invalid " ++ name ++ ": " ++ version ++ ". Must be in " ++ "X.Y.Z" ++
          " format.") := by
    intro version name hm
    unfold validateVersion
    rw [if_pos rfl]
    simp only [hm, Bool.false_eq_true, if_false]
  have hval2 : ∀ version name, matchesXYZPreviewN version = false →
      validateVersion version "X.Y.Z-preview.N" name =
        .error ("Invalid " ++ name ++ ": " ++ version ++ ". Must be in " ++
          "X.Y.Z-preview.N" ++ " format.") := by
    intro version name hm
    unfold validateVersion
    rw [if_neg (by decide : ¬("X.Y.Z-preview.N" : String) = "X.Y.Z"), if_pos rfl]
    simp only [hm, Bool.false_eq_true, if_false]
  refine ⟨?_, ?_, hval1, hval2⟩
  · intro s pv ptag hs hsne hm h1
    have htr : jsTruthy (some s) = true := by
      show decide (s ≠ "") = true
      exact decide_eq_true hsne
    have hvv := hval1 (stripLeadingV s) "stable_version_override" hm
    simp only [getStableVersion, h1, hs, jsStr, hvv]
    rw [if_pos htr]
  · intro s nv ntag hs hsne hm h1
    have htr : jsTruthy (some s) = true := by
      show decide (s ≠ "") = true
      exact decide_eq_true hsne
    have hvv := hval2 (stripLeadingV s) "preview_version_override" hm
    simp only [getPreviewVersion, h1, hs, jsStr, hvv]
    rw [if_pos htr]

theorem c8_witness :
    getStableVersion envA ⟨some "stable", some "1.2.3-beta", none, none⟩ =
      .error "Invalid stable_version_override: 1.2.3-beta. Must be in X.Y.Z format." :=
  (c8_amended_overrideValidation envA ⟨some "stable", some "1.2.3-beta", none, none⟩).1
    "1.2.3-beta" "0.5.0-preview.2" "v0.5.0-preview.2" rfl (by decide) (by decide) rfl
